import Mathlib

/-!
Verification of the agent orchestration core of the `ariste` repository
against its natural-language specification.

The development shallowly embeds the Rust source:

* `src/llm/ollama.rs` — the streaming transport decoder (`Ollama::execute_impl`)
  and the chat-client configuration (`Ollama` builder, `Agent::load_from_config`);
* `src/agent/agent.rs` — the top-level tool-calling loop (`Agent::invoke`),
  the subagent loop (`Agent::run_subagent_loop`), tool dispatch
  (`Agent::execute_tool`), subagent roles (`SubAgentType`) and concurrent
  fan-out (`Agent::spawn_multiple_tasks`).

JSON argument values are abstracted by a type parameter `α` (the loops and the
dispatcher never inspect arguments, they only pass them through), and the
model endpoint is abstracted by an oracle `List (Message α) → OllamaResponse α`
giving the decoded response for each conversation state.
-/

set_option maxRecDepth 4096

namespace Ariste

/-! ## Data model (`src/agent/message.rs`, `src/llm/ollama.rs`)

A tool-call entry is a JSON value of shape
`{id: string?, function: {name: string?, arguments: json?}?}`; the Rust code
reads each field with `get(..)`/`as_str()` option chaining, hence every field
is an `Option` here. -/

structure ToolFunction (α : Type) where
  name : Option String
  arguments : Option α
deriving DecidableEq, Repr

structure ToolCall (α : Type) where
  id : Option String
  function : Option (ToolFunction α)
deriving DecidableEq, Repr

/-- Model of `OllamaResponse` from `src/llm/ollama.rs`. -/
structure OllamaResponse (α : Type) where
  content : String
  tool_calls : Option (List (ToolCall α))
deriving DecidableEq, Repr

/-- Model of `Message` from `src/agent/message.rs` as used by the loops. -/
structure Message (α : Type) where
  role : String
  content : String
  tool_calls : Option (List (ToolCall α))
  tool_call_id : Option String
deriving DecidableEq, Repr

/-! ## Transport decoder (`Ollama::execute_impl`, src/llm/ollama.rs 128-250)

A stream chunk is one JSON object; the decoder reads `message.tool_calls`,
the top-level `done` flag, `message.thinking` and `message.content`, in that
order.  A byte sequence that fails UTF-8 or JSON decoding is skipped; we model
a raw chunk as `Option (Chunk α)` with `none` for a malformed chunk. -/

structure ChunkMessage (α : Type) where
  tool_calls : Option (List (ToolCall α))
  thinking : Option String
  content : Option String
deriving DecidableEq, Repr

structure Chunk (α : Type) where
  message : Option (ChunkMessage α)
  done : Option Bool
deriving DecidableEq, Repr

variable {α : Type}

/-- The per-chunk processing loop of `Ollama::execute_impl`: accumulate
`tool_calls` entries, stop on `done == true` (before looking at the text
fields), skip the chunk's text on a `thinking` fragment (the `continue` after
the UI callback), otherwise append the `content` fragment to the response
accumulator.  UI side effects (spinner, verbose printing) are dropped: they do
not touch `response` or `tool_calls_buffer`. -/
def decodeChunks : List (Option (Chunk α)) → String → List (ToolCall α) →
    String × List (ToolCall α)
  | [], response, buf => (response, buf)
  | none :: rest, response, buf => decodeChunks rest response buf
  | some c :: rest, response, buf =>
    let buf' := buf ++ (c.message.bind (fun m => m.tool_calls)).getD []
    if c.done = some true then (response, buf')
    else
      match c.message with
      | none => decodeChunks rest response buf'
      | some m =>
        match m.thinking with
        | some _ => decodeChunks rest response buf'
        | none =>
          match m.content with
          | some s => decodeChunks rest (response ++ s) buf'
          | none => decodeChunks rest response buf'

/-- Model of `Ollama::execute_impl`: run the chunk loop on empty accumulators and wrap
the result, returning `none` for the tool calls when the buffer stayed empty
(`if tool_calls_buffer.is_empty() { None } else { Some(..) }`). -/
def execute_impl (chunks : List (Option (Chunk α))) : OllamaResponse α :=
  let r := decodeChunks chunks "" []
  { content := r.1, tool_calls := if r.2.isEmpty then none else some r.2 }

/-- Concatenation of a list of strings (head first). -/
def joinPieces : List String → String
  | [] => ""
  | s :: rest => s ++ joinPieces rest

/-- The `content` text fragments carried by a list of chunks, in stream
order. -/
def contentFragments (cs : List (Chunk α)) : List String :=
  cs.filterMap (fun c => c.message.bind (fun m => m.content))

/-- The decoded content as the specification sentence for C3 words it: the
concatenation, in stream order, of the `content` fragments of *all* chunks,
including any content carried by the terminating `done` chunk. -/
def contentClaimedBySpec (cs : List (Chunk α)) : String :=
  joinPieces (contentFragments cs)

/-- The decoded content as the code computes it: only chunks strictly before
the first `done` chunk contribute, and a chunk carrying a `thinking` fragment
contributes nothing (its `content`, if any, is suppressed by the `continue`). -/
def contentDecoded (cs : List (Chunk α)) : String :=
  joinPieces ((cs.takeWhile (fun c => decide (c.done ≠ some true))).filterMap
    (fun c => c.message.bind (fun m => if m.thinking.isSome then none else m.content)))

/-- All `tool_calls` entries carried by a list of chunks, in stream order. -/
def toolCallFragments (cs : List (Chunk α)) : List (ToolCall α) :=
  (cs.map (fun c => (c.message.bind (fun m => m.tool_calls)).getD [])).flatten

theorem string_append_assoc (a b c : String) : a ++ b ++ c = a ++ (b ++ c) := by
  rcases a with ⟨a⟩; rcases b with ⟨b⟩; rcases c with ⟨c⟩
  show String.mk (a ++ b ++ c) = String.mk (a ++ (b ++ c))
  rw [List.append_assoc]

theorem decodeChunks_content (cs : List (Chunk α)) :
    ∀ (response : String) (buf : List (ToolCall α)),
      (decodeChunks (cs.map some) response buf).1 = response ++ contentDecoded cs := by
  induction cs with
  | nil =>
    intro response buf
    show response = response ++ contentDecoded ([] : List (Chunk α))
    rw [show contentDecoded ([] : List (Chunk α)) = "" from rfl, String.append_empty]
  | cons c rest ih =>
    intro response buf
    obtain ⟨cmsg, cdone⟩ := c
    rw [List.map_cons]
    match cdone with
    | some true =>
      simp [decodeChunks, contentDecoded, List.takeWhile_cons, joinPieces,
        String.append_empty]
    | none =>
      rcases cmsg with _ | ⟨mtc, mth, mct⟩
      · simpa [decodeChunks, contentDecoded, List.takeWhile_cons,
          List.filterMap_cons] using ih response _
      · rcases mth with _ | t
        · rcases mct with _ | s
          · simpa [decodeChunks, contentDecoded, List.takeWhile_cons,
              List.filterMap_cons] using ih response _
          · simpa [decodeChunks, contentDecoded, List.takeWhile_cons,
              List.filterMap_cons, joinPieces, string_append_assoc]
              using ih (response ++ s) _
        · simpa [decodeChunks, contentDecoded, List.takeWhile_cons,
            List.filterMap_cons] using ih response _
    | some false =>
      rcases cmsg with _ | ⟨mtc, mth, mct⟩
      · simpa [decodeChunks, contentDecoded, List.takeWhile_cons,
          List.filterMap_cons] using ih response _
      · rcases mth with _ | t
        · rcases mct with _ | s
          · simpa [decodeChunks, contentDecoded, List.takeWhile_cons,
              List.filterMap_cons] using ih response _
          · simpa [decodeChunks, contentDecoded, List.takeWhile_cons,
              List.filterMap_cons, joinPieces, string_append_assoc]
              using ih (response ++ s) _
        · simpa [decodeChunks, contentDecoded, List.takeWhile_cons,
            List.filterMap_cons] using ih response _

/-- CLAIM C3 (counterexample stream): one plain content chunk `"a"`, one chunk
carrying both a `thinking` fragment and content `"x"`, and a terminating
`done` chunk carrying content `"b"`. -/
def c3Chunks : List (Chunk Unit) :=
  [ ⟨some ⟨none, none, some "a"⟩, none⟩,
    ⟨some ⟨none, some "t", some "x"⟩, none⟩,
    ⟨some ⟨none, none, some "b"⟩, some true⟩ ]

/-- C3, counterexample: the claim says the decoded content is the
concatenation of the `content` fragments of all chunks, including the
terminating `done` chunk — here `"axb"` — but the decoder yields `"a"`: the
`done` check fires before the content of the terminating chunk is read, and a
chunk carrying a `thinking` fragment has its content suppressed. -/
theorem decoded_content_differs_from_spec_claim :
    (execute_impl (c3Chunks.map some)).content = "a" ∧
      contentClaimedBySpec c3Chunks = "axb" ∧
      ("a" : String) ≠ "axb" := by
  refine ⟨rfl, rfl, ?_⟩
  decide

/-- C3, amended: for every stream of well-formed chunks, the decoded content
equals the concatenation, in stream order, of the `content` fragments of the
chunks strictly preceding the first chunk whose `done` flag is true, excluding
chunks that also carry a `thinking` fragment; in particular no `thinking`
fragment appears in the content. -/
theorem decoded_content_eq_contentDecoded (cs : List (Chunk α)) :
    (execute_impl (cs.map some)).content = contentDecoded cs := by
  have h := decodeChunks_content cs "" []
  simpa [execute_impl, String.empty_append] using h

theorem decodeChunks_tool_calls (cs : List (Chunk α))
    (h : ∀ c ∈ cs.dropLast, c.done ≠ some true) :
    ∀ (response : String) (buf : List (ToolCall α)),
      (decodeChunks (cs.map some) response buf).2 = buf ++ toolCallFragments cs := by
  induction cs with
  | nil =>
    intro response buf
    show buf = buf ++ toolCallFragments ([] : List (Chunk α))
    simp [toolCallFragments]
  | cons c rest ih =>
    intro response buf
    obtain ⟨cmsg, cdone⟩ := c
    rw [List.map_cons]
    have hfrag : toolCallFragments ((⟨cmsg, cdone⟩ : Chunk α) :: rest) =
        (cmsg.bind (fun m => m.tool_calls)).getD [] ++ toolCallFragments rest := by
      simp [toolCallFragments]
    by_cases hdone : cdone = some true
    · have hrest : rest = [] := by
        cases rest with
        | nil => rfl
        | cons r rs =>
          exact absurd hdone (h ⟨cmsg, cdone⟩ (by simp [List.dropLast]))
      subst hrest
      subst hdone
      simp [decodeChunks, toolCallFragments]
    · have h' : ∀ c' ∈ rest.dropLast, c'.done ≠ some true := by
        intro c' hc'
        apply h
        cases rest with
        | nil => simp at hc'
        | cons r rs =>
          simp only [List.dropLast]
          exact List.mem_cons_of_mem _ hc'
      have ihx := ih h'
      rw [hfrag]
      rcases cmsg with _ | ⟨mtc, mth, mct⟩
      · simp [decodeChunks, hdone, ihx, List.append_assoc]
      · rcases mth with _ | t
        · rcases mct with _ | s
          · simp [decodeChunks, hdone, ihx, List.append_assoc]
          · simp [decodeChunks, hdone, ihx, List.append_assoc]
        · simp [decodeChunks, hdone, ihx, List.append_assoc]

/-- C4: for every stream of well-formed chunks in which only the final chunk
may carry `done = true`, the decoded `tool_calls` is exactly the list of all
tool-call fragments of the stream in original order (hence of the same
length), and it is `none` — not an empty list — when the stream carries no
tool-call fragment. -/
theorem decoded_tool_calls_ordered (cs : List (Chunk α))
    (h : ∀ c ∈ cs.dropLast, c.done ≠ some true) :
    (execute_impl (cs.map some)).tool_calls =
      if (toolCallFragments cs).isEmpty then none else some (toolCallFragments cs) := by
  have hx : (decodeChunks (cs.map some) "" []).2 = toolCallFragments cs := by
    simpa using decodeChunks_tool_calls cs h "" []
  show (if (decodeChunks (cs.map some) "" []).2.isEmpty then none
      else some (decodeChunks (cs.map some) "" []).2) =
    if (toolCallFragments cs).isEmpty then none else some (toolCallFragments cs)
  rw [hx]

/-- Concrete stream for the C4 witness: tool-call fragments spread over two
chunks (1 + 2 of them) and a final `done` chunk. -/
def c4Chunks : List (Chunk Unit) :=
  [ ⟨some ⟨some [⟨some "1", none⟩], none, some "hi"⟩, none⟩,
    ⟨some ⟨some [⟨some "2", none⟩, ⟨some "3", none⟩], none, none⟩, none⟩,
    ⟨none, some true⟩ ]

/-- C4, witness: the three tool-call fragments of `c4Chunks` are decoded in
original order. -/
theorem decoded_tool_calls_ordered_witness :
    (execute_impl (c4Chunks.map some)).tool_calls =
      some [⟨some "1", none⟩, ⟨some "2", none⟩, ⟨some "3", none⟩] := by
  have h := decoded_tool_calls_ordered c4Chunks (by decide)
  simpa [c4Chunks, toolCallFragments] using h

/-! ## Message constructors used by the loops (src/agent/agent.rs) -/

/-- The `user` message pushed by `Agent::invoke` and built for subagents. -/
def userMessage (content : String) : Message α :=
  { role := "user", content := content, tool_calls := none, tool_call_id := none }

/-- The `assistant` message pushed by both loops (with the response's tool
calls when present, `None` otherwise). -/
def assistantMessage (content : String) (tool_calls : Option (List (ToolCall α))) :
    Message α :=
  { role := "assistant", content := content, tool_calls := tool_calls,
    tool_call_id := none }

/-- The `tool` result message pushed after a dispatched call. -/
def toolMessage (tool_call_id : String) (content : String) : Message α :=
  { role := "tool", content := content, tool_calls := none,
    tool_call_id := some tool_call_id }

/-! ## Tool registry and dispatcher (`Agent::execute_tool`, agent.rs 453-603)

A registered tool is named by `tool.definition().function.name` and executes
arguments to `Result<String, String>`; `execute_tool` wraps a tool-internal
failure as `Error::Message("Tool execution error: {e}")` and an unknown name
as `Error::Message("Tool not found: {name}")`.  The `name == "task"` branch
(delegation) runs the subagent orchestration; it is abstracted here as a
function `spawnTask`, whose construction is modelled separately
(`subagentOllama` below). -/

structure RegisteredTool (α : Type) where
  name : String
  exec : α → Except String String

def execute_tool (spawnTask : α → Except String String)
    (tools : List (RegisteredTool α)) (name : String) (args : α) :
    Except String String :=
  if name = "task" then spawnTask args
  else
    match tools.find? (fun tool => tool.name == name) with
    | some tool =>
      match tool.exec args with
      | .ok result => .ok result
      | .error e => .error ("Tool execution error: " ++ e)
    | none => .error ("Tool not found: " ++ name)

/-! ## Top-level agent loop (`Agent::invoke`, agent.rs 259-338)

The model endpoint (`Ollama::execute_with_messages` + decoder) is an oracle
from the conversation state to a decoded response.  The Rust `loop` counts
`iteration` from 1 and fails once `iteration > max_iterations`; we recurse on
the remaining allowance `max_iterations - (iteration - 1)`, so the `Err` case
is the `fuel = 0` case.  The pair returned is the final `self.messages`
together with `Ok(())`/`Err` exactly as the Rust method leaves them. -/

variable [Inhabited α]

/-- Per-call dispatch of `Agent::invoke`: a call without a `function` field is
skipped; otherwise the tool is executed and, on success, a `tool` message with
the call's id is pushed; an `Err` from `execute_tool` aborts via `?`,
leaving the messages pushed so far. -/
def dispatchCalls (execTool : String → α → Except String String)
    (msgs : List (Message α)) :
    List (ToolCall α) → List (Message α) × Option String
  | [] => (msgs, none)
  | tc :: rest =>
    match tc.function with
    | none => dispatchCalls execTool msgs rest
    | some f =>
      let name := f.name.getD ""
      let arguments := f.arguments.getD default
      let tool_call_id := tc.id.getD ""
      match execTool name arguments with
      | .error e => (msgs, some e)
      | .ok result =>
        dispatchCalls execTool (msgs ++ [toolMessage tool_call_id result]) rest

def max_iterations : Nat := 5

def invokeLoop (oracle : List (Message α) → OllamaResponse α)
    (execTool : String → α → Except String String) :
    Nat → List (Message α) → List (Message α) × Except String Unit
  | 0, msgs => (msgs, .error "Too many tool call iterations")
  | fuel + 1, msgs =>
    let resp := oracle msgs
    match resp.tool_calls with
    | some tool_calls =>
      let msgs' := msgs ++ [assistantMessage resp.content (some tool_calls)]
      match dispatchCalls execTool msgs' tool_calls with
      | (msgs'', some e) => (msgs'', .error e)
      | (msgs'', none) => invokeLoop oracle execTool fuel msgs''
    | none => (msgs ++ [assistantMessage resp.content none], .ok ())

theorem invokeLoop_zero (oracle : List (Message α) → OllamaResponse α)
    (execTool : String → α → Except String String) (msgs : List (Message α)) :
    invokeLoop oracle execTool 0 msgs
      = (msgs, .error "Too many tool call iterations") := rfl

theorem invokeLoop_succ (oracle : List (Message α) → OllamaResponse α)
    (execTool : String → α → Except String String) (fuel : Nat)
    (msgs : List (Message α)) :
    invokeLoop oracle execTool (fuel + 1) msgs =
      (match (oracle msgs).tool_calls with
       | some tool_calls =>
         (match dispatchCalls execTool
             (msgs ++ [assistantMessage (oracle msgs).content (some tool_calls)])
             tool_calls with
          | (msgs'', some e) => (msgs'', Except.error e)
          | (msgs'', none) => invokeLoop oracle execTool fuel msgs'')
       | none =>
         (msgs ++ [assistantMessage (oracle msgs).content none], Except.ok ())) := rfl

/-- Model of `Agent::invoke`: push the user prompt, then run the bounded tool-calling
loop. -/
def invoke (oracle : List (Message α) → OllamaResponse α)
    (execTool : String → α → Except String String)
    (msgs : List (Message α)) (prompt : String) :
    List (Message α) × Except String Unit :=
  invokeLoop oracle execTool max_iterations (msgs ++ [userMessage prompt])

/-! ## Subagent loop (`Agent::run_subagent_loop`, agent.rs 342-451) -/

/-- The recursion-guard tool result (`json!({...}).to_string()`; serde_json
serializes object keys in sorted order, which here coincides with insertion
order). -/
def recursionGuardMessage : String :=
  "\x7b\"error\":\"Subagents cannot spawn additional subagents\",\"suggestion\":\"Complete the task yourself using available tools\"\x7d"

/-- Per-call dispatch of `Agent::run_subagent_loop`: a call named `"task"` is
answered with the recursion-guard message instead of being executed; any other
call is executed, an execution error being converted to a
`"Tool execution error: {e}"` tool message rather than propagated. -/
def subagentDispatch (execTool : String → α → Except String String)
    (msgs : List (Message α)) : List (ToolCall α) → List (Message α)
  | [] => msgs
  | tc :: rest =>
    match tc.function with
    | none => subagentDispatch execTool msgs rest
    | some f =>
      let name := f.name.getD ""
      let arguments := f.arguments.getD default
      let tool_call_id := tc.id.getD ""
      if name = "task" then
        subagentDispatch execTool
          (msgs ++ [toolMessage tool_call_id recursionGuardMessage]) rest
      else
        let result :=
          match execTool name arguments with
          | .ok r => r
          | .error e => "Tool execution error: " ++ e
        subagentDispatch execTool (msgs ++ [toolMessage tool_call_id result]) rest

/-- The fallback after the `turn > max_turns` break: the content of the last
`assistant` message, if any, else the "no response generated" error. -/
def lastAssistantResult (msgs : List (Message α)) : Except String String :=
  match msgs.reverse.find? (fun m => m.role == "assistant") with
  | some m => .ok m.content
  | none => .error "Subagent: No response generated"

/-- The body of `run_subagent_loop`.  In the Rust `loop`, both `turn` and
`iteration` are incremented at the top of every pass (the iteration counter is
never reset when a new turn starts); `remaining` here is
`max_turns - (turn - 1)`, so the `turn > max_turns` break is the
`remaining = 0` case, and `iteration` is threaded through unchanged. -/
def subagentGo (oracle : List (Message α) → OllamaResponse α)
    (execTool : String → α → Except String String) :
    Nat → Nat → List (Message α) → List (Message α) × Except String String
  | 0, _, msgs => (msgs, lastAssistantResult msgs)
  | remaining + 1, iteration, msgs =>
    let iteration' := iteration + 1
    if iteration' > max_iterations then
      (msgs, .error "Subagent: Too many iterations in one turn")
    else
      let resp := oracle msgs
      match resp.tool_calls with
      | some tool_calls =>
        let msgs' := msgs ++ [assistantMessage resp.content (some tool_calls)]
        subagentGo oracle execTool remaining iteration'
          (subagentDispatch execTool msgs' tool_calls)
      | none =>
        (msgs ++ [assistantMessage resp.content none], .ok resp.content)

theorem subagentGo_zero (oracle : List (Message α) → OllamaResponse α)
    (execTool : String → α → Except String String) (iteration : Nat)
    (msgs : List (Message α)) :
    subagentGo oracle execTool 0 iteration msgs = (msgs, lastAssistantResult msgs) := rfl

theorem subagentGo_succ (oracle : List (Message α) → OllamaResponse α)
    (execTool : String → α → Except String String) (remaining iteration : Nat)
    (msgs : List (Message α)) :
    subagentGo oracle execTool (remaining + 1) iteration msgs =
      (if iteration + 1 > max_iterations then
        (msgs, .error "Subagent: Too many iterations in one turn")
      else
        match (oracle msgs).tool_calls with
        | some tool_calls =>
          subagentGo oracle execTool remaining (iteration + 1)
            (subagentDispatch execTool
              (msgs ++ [assistantMessage (oracle msgs).content (some tool_calls)])
              tool_calls)
        | none =>
          (msgs ++ [assistantMessage (oracle msgs).content none],
            .ok (oracle msgs).content)) := rfl

/-- Model of `Agent::run_subagent_loop`: set the initial messages and run the loop with
`turn = iteration = 0`. -/
def run_subagent_loop (oracle : List (Message α) → OllamaResponse α)
    (execTool : String → α → Except String String)
    (initial_messages : List (Message α)) (max_turns : Nat) :
    List (Message α) × Except String String :=
  subagentGo oracle execTool max_turns 0 initial_messages

/-! ## Subagent roles and chat-client construction
(`SubAgentType`, `Agent::load_from_config`, the `"task"` branch of
`Agent::execute_tool`, agent.rs 133-257 and 453-561) -/

inductive SubAgentType where
  | GeneralPurpose
  | Explore
  | Plan
  | CodeReview
  | TestRunner
deriving DecidableEq, Repr

/-- Model of `SubAgentType::uses_tools` (agent.rs 186-194). -/
def SubAgentType.uses_tools : SubAgentType → Bool
  | .Explore => true
  | .CodeReview => true
  | .TestRunner => true
  | .GeneralPurpose => true
  | .Plan => false

/-- Model of `FunctionDefinition` from `src/tools/types.rs` (the JSON `parameters`
schema, never inspected by the orchestration core, is not modelled). -/
structure FunctionDefinition where
  name : String
  description : String
deriving DecidableEq, Repr

/-- Model of `ToolDefinition` from `src/tools/types.rs`. -/
structure ToolDefinition where
  type : String
  function : FunctionDefinition
deriving DecidableEq, Repr

/-- The nine tool definitions registered by `Agent::load_from_config`
(agent.rs 222-242), in registration order. -/
def tool_definitions : List ToolDefinition :=
  [ ⟨"function", ⟨"bash", "Execute bash commands in the shell"⟩⟩,
    ⟨"function", ⟨"read", "Read the contents of a file from the file system"⟩⟩,
    ⟨"function", ⟨"write", "Write content to a file. Creates the file if it doesn't exist, overwrites if it does."⟩⟩,
    ⟨"function", ⟨"glob", "Search for files matching a glob pattern. Returns a list of matching file paths sorted by modification time. This is useful for finding files by name pattern or extension."⟩⟩,
    ⟨"function", ⟨"grep", "Search for text patterns in files using regular expressions. Supports recursive directory searching and multiple output modes."⟩⟩,
    ⟨"function", ⟨"edit", "Edit a file by replacing text. Reads the file, replaces occurrences of old_string with new_string, and writes it back. Preserves the original file encoding and line endings."⟩⟩,
    ⟨"function", ⟨"web_fetch", "Fetch content from a URL. Supports various HTTP methods, custom headers, and timeouts. Returns the response body as text. Useful for retrieving web pages, API responses, or online resources."⟩⟩,
    ⟨"function", ⟨"todo_write", "Update the todo list to track progress and organize tasks"⟩⟩,
    ⟨"function", ⟨"task", "Launch a specialized subagent to handle complex, multi-step tasks autonomously"⟩⟩ ]

/-- The configuration state of the `Ollama` chat client
(`src/llm/ollama.rs` 22-64). -/
structure Ollama where
  url : Option String
  stream : Bool
  verbose : Bool
  think : Bool
  tools : Option (List ToolDefinition)
deriving DecidableEq, Repr

/-- Model of `Ollama::new()`. -/
def Ollama.new : Ollama :=
  { url := none, stream := true, verbose := true, think := true, tools := none }

/-- Builder `Ollama::url`. -/
def Ollama.withUrl (o : Ollama) (u : String) : Ollama := { o with url := some u }

/-- Builder `Ollama::stream`. -/
def Ollama.withStream (o : Ollama) (b : Bool) : Ollama := { o with stream := b }

/-- Builder `Ollama::think`. -/
def Ollama.withThink (o : Ollama) (b : Bool) : Ollama := { o with think := b }

/-- Builder `Ollama::tools`. -/
def Ollama.withTools (o : Ollama) (t : List ToolDefinition) : Ollama :=
  { o with tools := some t }

/-- The chat URL computed by `Agent::load_from_config` from the optional
configured base. -/
def configUrl (base : Option String) : String :=
  match base with
  | some b => b ++ "/api/chat"
  | none => "http://localhost:11434/api/chat"

/-- The chat client built by `Agent::load_from_config` (agent.rs 244-248):
`Ollama::new().url(url).think(false).tools(tool_definitions)`. -/
def loadedOllama (base : Option String) : Ollama :=
  ((Ollama.new.withUrl (configUrl base)).withThink false).withTools tool_definitions

/-- The chat client a spawned subagent ends up with (the `"task"` branch of
`Agent::execute_tool`, agent.rs 526-534): the subagent is created by
`Agent::load_from_config`, then its client is replaced by a bare
`Ollama::new().stream(false).think(false)` when `include_tools` is false or
the role's capability flag forbids tools. -/
def subagentOllama (base : Option String) (include_tools : Bool)
    (subagent_type : SubAgentType) : Ollama :=
  if !include_tools || !subagent_type.uses_tools then
    (Ollama.new.withStream false).withThink false
  else
    loadedOllama base

/-! ## Concurrent fan-out (`Agent::spawn_multiple_tasks`, agent.rs 711-755)

Each task's future builds its own agent and runs `spawn_task` independently,
so a task's outcome is a function of the task alone (`runTask`).  `join_all`
places each completed future's value at that future's index regardless of the
completion order; the completion order is modelled as the list of indices in
the order in which the futures finish (`completeAll`).  The orchestrator then
collects the slots in the original request order, propagating the first error
(`outputs.push(result?)`). -/

structure SubAgentTask where
  subagent_type : SubAgentType
  description : String
  prompt : String
  include_context : Bool
  include_tools : Bool
deriving DecidableEq, Repr

/-- Completion of a set of futures whose eventual values are `res`, in the
completion order `order` (a permutation of the indices): each completion slots
its value at its own index. -/
def completeAll (res : List ρ) : List Nat → List (Option ρ) → List (Option ρ)
  | [], out => out
  | i :: rest, out => completeAll res rest (out.set i res[i]?)

/-- Model of `futures_util::future::join_all`: start with every slot pending, let the
futures complete in `order`, return the slots (index order). -/
def joinAll (res : List ρ) (order : List Nat) : List (Option ρ) :=
  completeAll res order (List.replicate res.length none)

/-- First-error collection of `for result in results { outputs.push(result?) }`. -/
def collectResults : List (Except String String) → Except String (List String)
  | [] => .ok []
  | .error e :: _ => .error e
  | .ok r :: rest =>
    match collectResults rest with
    | .error e => .error e
    | .ok rs => .ok (r :: rs)

/-- Model of `Agent::spawn_multiple_tasks`: run every task (each with its own agent,
conversation state and client), wait for all of them, and collect the
per-task results in the original request order. -/
def spawn_multiple_tasks (runTask : SubAgentTask → Except String String)
    (tasks : List SubAgentTask) : Except String (List String) :=
  collectResults (tasks.map runTask)

/-! ## Theorems -/

/-- C7: a subagent whose role has the tools-disabled capability flag (the
`Plan` role) gets a chat client carrying no `ToolDefinitions`, even when the
delegation request passes `include_tools = true`; and when `include_tools` is
false the constructed client carries no `ToolDefinitions` for any role. -/
theorem tools_disabled_subagent_client_has_no_tools :
    ∀ (base : Option String) (include_tools : Bool) (role : SubAgentType),
      (subagentOllama base include_tools SubAgentType.Plan).tools = none ∧
        (subagentOllama base false role).tools = none := by
  intro base include_tools role
  constructor
  · cases include_tools <;> rfl
  · rfl

/-- C10: when a delegation request carries `include_tools = true` and the
role's capability flag permits tools, the spawned subagent keeps the client
built by `Agent::load_from_config`, which carries the full tool-definition
list — including the `"task"` delegation tool's own definition — so the only
recursion guard in effect is the explicit name check inside the subagent
loop, which fires no matter how the delegation tool would execute. -/
theorem tool_enabled_subagent_client_carries_task_definition
    (base : Option String) (role : SubAgentType) (h : role.uses_tools = true) :
    (subagentOllama base true role).tools = some tool_definitions ∧
      (tool_definitions.map (fun d => d.function.name)).contains "task" = true ∧
      (∀ (α : Type) (_ : Inhabited α) (execTool : String → α → Except String String)
        (msgs : List (Message α)) (id : Option String) (args : Option α),
        subagentDispatch execTool msgs [⟨id, some ⟨some "task", args⟩⟩]
          = msgs ++ [toolMessage (id.getD "") recursionGuardMessage]) := by
  refine ⟨?_, by decide, ?_⟩
  · simp [subagentOllama, h, loadedOllama, Ollama.new, Ollama.withUrl,
      Ollama.withThink, Ollama.withTools]
  · intro α _ execTool msgs id args
    rfl

/-- C10, witness: the general-purpose role with `include_tools = true` keeps
the fully tooled client. -/
theorem tool_enabled_subagent_client_carries_task_definition_witness :
    (subagentOllama none true SubAgentType.GeneralPurpose).tools
      = some tool_definitions :=
  (tool_enabled_subagent_client_carries_task_definition none
    SubAgentType.GeneralPurpose rfl).1

omit [Inhabited α] in
theorem execute_tool_spawn_irrelevant_off_task
    (spawnA spawnB : α → Except String String) (tools : List (RegisteredTool α))
    (n : String) (a : α) (h : n ≠ "task") :
    execute_tool spawnA tools n a = execute_tool spawnB tools n a := by
  simp [execute_tool, h]

theorem subagentDispatch_congr
    (f g : String → α → Except String String)
    (hfg : ∀ n a, n ≠ "task" → f n a = g n a) :
    ∀ (calls : List (ToolCall α)) (msgs : List (Message α)),
      subagentDispatch f msgs calls = subagentDispatch g msgs calls := by
  intro calls
  induction calls with
  | nil => intro msgs; rfl
  | cons tc rest ih =>
    intro msgs
    match hfn : tc.function with
    | none => simp [subagentDispatch, hfn, ih]
    | some fdef =>
      by_cases hname : fdef.name.getD "" = "task"
      · simp [subagentDispatch, hfn, hname, ih]
      · simp [subagentDispatch, hfn, hname,
          hfg (fdef.name.getD "") (fdef.arguments.getD default) hname, ih]

theorem subagentGo_congr
    (oracle : List (Message α) → OllamaResponse α)
    (f g : String → α → Except String String)
    (hfg : ∀ n a, n ≠ "task" → f n a = g n a) :
    ∀ (remaining iteration : Nat) (msgs : List (Message α)),
      subagentGo oracle f remaining iteration msgs
        = subagentGo oracle g remaining iteration msgs := by
  intro remaining
  induction remaining with
  | zero => intro it msgs; rfl
  | succ r ih =>
    intro it msgs
    by_cases hit : it + 1 > max_iterations
    · simp [subagentGo, hit]
    · cases hres : (oracle msgs).tool_calls with
      | none => simp [subagentGo, hit, hres]
      | some tool_calls =>
        simp [subagentGo, hit, hres, subagentDispatch_congr f g hfg, ih]

/-- C2: inside a running subagent loop, a tool call naming the delegation
tool `"task"` is rejected by appending a `tool`-role message carrying the
"Subagents cannot spawn additional subagents" text instead of being executed;
and the subagent loop's outcome is entirely independent of how the delegation
tool would execute (two dispatchers differing only in their `"task"`
behaviour produce identical runs), so a nested subagent orchestration is
never invoked from within a subagent. -/
theorem subagent_rejects_task_calls :
    (∀ (α : Type) (_ : Inhabited α) (execTool : String → α → Except String String)
      (msgs : List (Message α)) (id : Option String) (args : Option α)
      (rest : List (ToolCall α)),
      subagentDispatch execTool msgs (⟨id, some ⟨some "task", args⟩⟩ :: rest)
        = subagentDispatch execTool
            (msgs ++ [toolMessage (id.getD "") recursionGuardMessage]) rest) ∧
    (∀ (α : Type) (_ : Inhabited α) (spawnA spawnB : α → Except String String)
      (tools : List (RegisteredTool α))
      (oracle : List (Message α) → OllamaResponse α)
      (initial : List (Message α)) (max_turns : Nat),
      run_subagent_loop oracle (execute_tool spawnA tools) initial max_turns
        = run_subagent_loop oracle (execute_tool spawnB tools) initial max_turns) := by
  constructor
  · intro α _ execTool msgs id args rest
    rfl
  · intro α _ spawnA spawnB tools oracle initial max_turns
    exact subagentGo_congr oracle _ _
      (fun n a h => execute_tool_spawn_irrelevant_off_task spawnA spawnB tools n a h)
      max_turns 0 initial

/-- A model oracle that answers every conversation state with the same
tool-call-carrying response. -/
def c1Oracle : List (Message Unit) → OllamaResponse Unit :=
  fun _ => { content := "draft answer",
             tool_calls := some [⟨some "1", some ⟨some "bash", none⟩⟩] }

/-- C1 (code bug): at the turn budget both call sites pass
(`max_turns = 10`), a model that keeps requesting tool calls makes the
subagent loop fail with "Subagent: Too many iterations in one turn" on its
6th pass — `iteration` is incremented on every pass and never reset per turn
— even though assistant messages were seen; the claimed behaviour (10 turns
of up to 5 iterations each, then return the last assistant content) would
return `Ok("draft answer")` here, which is what the unreachable
`lastAssistantResult` fallback would produce on the final state. -/
theorem subagent_turn_ceiling_unreachable :
    (run_subagent_loop c1Oracle (fun _ _ => .ok "done") [] 10).2
        = .error "Subagent: Too many iterations in one turn" ∧
      lastAssistantResult (run_subagent_loop c1Oracle (fun _ _ => .ok "done") [] 10).1
        = .ok "draft answer" :=
  ⟨rfl, rfl⟩

/-- Number of `assistant` messages in a conversation state; each iteration of
the top-level loop (one model call, then dispatch) appends exactly one. -/
def countAssistant (msgs : List (Message α)) : Nat :=
  msgs.countP (fun m => m.role == "assistant")

omit [Inhabited α] in
theorem countAssistant_append (xs ys : List (Message α)) :
    countAssistant (xs ++ ys) = countAssistant xs + countAssistant ys :=
  List.countP_append _ _ _

theorem dispatchCalls_all_ok (execTool : String → α → Except String String)
    (hExec : ∀ n a, ∃ r, execTool n a = .ok r) :
    ∀ (calls : List (ToolCall α)) (msgs : List (Message α)),
      (dispatchCalls execTool msgs calls).2 = none ∧
        countAssistant (dispatchCalls execTool msgs calls).1 = countAssistant msgs := by
  intro calls
  induction calls with
  | nil => intro msgs; exact ⟨rfl, rfl⟩
  | cons tc rest ih =>
    intro msgs
    match hfn : tc.function with
    | none => simpa [dispatchCalls, hfn] using ih msgs
    | some f =>
      obtain ⟨r, hr⟩ := hExec (f.name.getD "") (f.arguments.getD default)
      have h2 := ih (msgs ++ [toolMessage (tc.id.getD "") r])
      refine ⟨?_, ?_⟩
      · simpa [dispatchCalls, hfn, hr] using h2.1
      · have := h2.2
        rw [countAssistant_append] at this
        simpa [dispatchCalls, hfn, hr, countAssistant, toolMessage] using this

theorem invokeLoop_always_tool_calls
    (oracle : List (Message α) → OllamaResponse α)
    (execTool : String → α → Except String String)
    (hOracle : ∀ msgs, ((oracle msgs).tool_calls).isSome)
    (hExec : ∀ n a, ∃ r, execTool n a = .ok r) :
    ∀ (fuel : Nat) (msgs : List (Message α)),
      (invokeLoop oracle execTool fuel msgs).2
          = .error "Too many tool call iterations" ∧
        countAssistant (invokeLoop oracle execTool fuel msgs).1
          = countAssistant msgs + fuel := by
  intro fuel
  induction fuel with
  | zero => intro msgs; exact ⟨rfl, rfl⟩
  | succ n ih =>
    intro msgs
    obtain ⟨calls, hcalls⟩ : ∃ calls, (oracle msgs).tool_calls = some calls := by
      have h := hOracle msgs
      cases hc : (oracle msgs).tool_calls with
      | none => rw [hc] at h; exact absurd h (by simp)
      | some calls => exact ⟨calls, rfl⟩
    have hd := dispatchCalls_all_ok execTool hExec calls
      (msgs ++ [assistantMessage (oracle msgs).content (some calls)])
    have hpair : dispatchCalls execTool
          (msgs ++ [assistantMessage (oracle msgs).content (some calls)]) calls
        = ((dispatchCalls execTool
            (msgs ++ [assistantMessage (oracle msgs).content (some calls)]) calls).1,
          none) := by
      conv_lhs =>
        rw [← Prod.mk.eta (p := dispatchCalls execTool
          (msgs ++ [assistantMessage (oracle msgs).content (some calls)]) calls)]
      rw [hd.1]
    have hrec := ih (dispatchCalls execTool
      (msgs ++ [assistantMessage (oracle msgs).content (some calls)]) calls).1
    have hcountA : countAssistant
          (msgs ++ [assistantMessage (oracle msgs).content (some calls)])
        = countAssistant msgs + 1 := by
      rw [countAssistant_append]
      rfl
    rw [invokeLoop_succ, hcalls]
    dsimp only
    rw [hpair]
    dsimp only
    refine ⟨hrec.1, ?_⟩
    rw [hrec.2, hd.2, hcountA]
    omega

/-- C5: in the top-level `Agent::invoke` loop, a model whose every response
carries tool calls (with every dispatched tool succeeding) never terminates
the loop successfully: it fails with the "Too many tool call iterations"
error after exactly `max_iterations = 5` model-call-then-dispatch cycles —
the final state holds exactly 5 more `assistant` messages than the starting
one, never more, never fewer. -/
theorem invoke_fails_after_exactly_five_iterations
    (oracle : List (Message α) → OllamaResponse α)
    (execTool : String → α → Except String String)
    (msgs : List (Message α)) (prompt : String)
    (hOracle : ∀ m, ((oracle m).tool_calls).isSome)
    (hExec : ∀ n a, ∃ r, execTool n a = .ok r) :
    (invoke oracle execTool msgs prompt).2 = .error "Too many tool call iterations" ∧
      countAssistant (invoke oracle execTool msgs prompt).1
        = countAssistant msgs + max_iterations := by
  have h := invokeLoop_always_tool_calls oracle execTool hOracle hExec
    max_iterations (msgs ++ [userMessage prompt])
  refine ⟨h.1, ?_⟩
  have := h.2
  rw [countAssistant_append] at this
  simpa [invoke, countAssistant, userMessage] using this

/-- A model oracle for the C5 witness that always requests one tool call. -/
def c5Oracle : List (Message Unit) → OllamaResponse Unit :=
  fun _ => { content := "c", tool_calls := some [⟨some "1", some ⟨some "bash", none⟩⟩] }

/-- C5, witness: running `invoke` against the always-tool-calling oracle from
the empty history fails with the ceiling error and 5 assistant messages. -/
theorem invoke_fails_after_exactly_five_iterations_witness :
    (invoke c5Oracle (fun _ _ => .ok "r") ([] : List (Message Unit)) "hi").2
        = .error "Too many tool call iterations" ∧
      countAssistant (invoke c5Oracle (fun _ _ => .ok "r")
          ([] : List (Message Unit)) "hi").1
        = countAssistant ([] : List (Message Unit)) + max_iterations :=
  invoke_fails_after_exactly_five_iterations c5Oracle (fun _ _ => .ok "r") [] "hi"
    (fun _ => rfl) (fun _ _ => ⟨"r", rfl⟩)

/-- C6: a registered tool whose `execute` fails behaves asymmetrically.  In
the top-level `Agent::invoke` loop the turn aborts: the loop returns the
propagated `"Tool execution error: {e}"` error right after the assistant
message, with no `tool` message appended.  Inside a subagent loop the same
failure is converted into a `tool`-role message whose content carries the
error text (`execute_tool` wraps the tool error once and the subagent dispatch
wraps the resulting `Error`'s display a second time), and the loop continues —
here to a next model call that ends the turn normally. -/
theorem tool_error_fatal_at_top_level_converted_in_subagent :
    (∀ (α : Type) (_ : Inhabited α) (spawn : α → Except String String)
      (tools : List (RegisteredTool α)) (tl : RegisteredTool α) (args : α)
      (e : String) (oracle : List (Message α) → OllamaResponse α)
      (init : List (Message α)) (prompt cid c : String),
      tools.find? (fun tool => tool.name == tl.name) = some tl →
      tl.exec args = .error e →
      tl.name ≠ "task" →
      oracle (init ++ [userMessage prompt])
        = ⟨c, some [⟨some cid, some ⟨some tl.name, some args⟩⟩]⟩ →
      invoke oracle (execute_tool spawn tools) init prompt
        = ((init ++ [userMessage prompt])
            ++ [assistantMessage c (some [⟨some cid, some ⟨some tl.name, some args⟩⟩])],
          .error ("Tool execution error: " ++ e))) ∧
    (∀ (α : Type) (_ : Inhabited α) (spawn : α → Except String String)
      (tools : List (RegisteredTool α)) (tl : RegisteredTool α) (args : α)
      (e : String) (oracle : List (Message α) → OllamaResponse α)
      (init : List (Message α)) (cid c c₂ : String),
      tools.find? (fun tool => tool.name == tl.name) = some tl →
      tl.exec args = .error e →
      tl.name ≠ "task" →
      oracle init = ⟨c, some [⟨some cid, some ⟨some tl.name, some args⟩⟩]⟩ →
      oracle ((init
          ++ [assistantMessage c (some [⟨some cid, some ⟨some tl.name, some args⟩⟩])])
          ++ [toolMessage cid ("Tool execution error: " ++ ("Tool execution error: " ++ e))])
        = ⟨c₂, none⟩ →
      run_subagent_loop oracle (execute_tool spawn tools) init 10
        = (((init
            ++ [assistantMessage c (some [⟨some cid, some ⟨some tl.name, some args⟩⟩])])
            ++ [toolMessage cid ("Tool execution error: " ++ ("Tool execution error: " ++ e))])
            ++ [assistantMessage c₂ none],
          .ok c₂)) := by
  have hex : ∀ (α : Type) (spawn : α → Except String String)
      (tools : List (RegisteredTool α)) (tl : RegisteredTool α) (args : α) (e : String),
      tools.find? (fun tool => tool.name == tl.name) = some tl →
      tl.exec args = .error e →
      tl.name ≠ "task" →
      execute_tool spawn tools tl.name args = .error ("Tool execution error: " ++ e) := by
    intro α spawn tools tl args e hfind herr hname
    simp [execute_tool, hname, hfind, herr]
  constructor
  · intro α _ spawn tools tl args e oracle init prompt cid c hfind herr hname horacle
    show invokeLoop oracle (execute_tool spawn tools) max_iterations
        (init ++ [userMessage prompt]) = _
    rw [show max_iterations = 4 + 1 from rfl, invokeLoop_succ, horacle]
    dsimp only
    simp only [dispatchCalls, Option.getD_some]
    rw [hex α spawn tools tl args e hfind herr hname]
  · intro α _ spawn tools tl args e oracle init cid c c₂ hfind herr hname horacle1 horacle2
    show subagentGo oracle (execute_tool spawn tools) 10 0 init = _
    rw [show (10 : Nat) = 9 + 1 from rfl, subagentGo_succ, if_neg (by decide), horacle1]
    dsimp only
    simp only [subagentDispatch, Option.getD_some, if_neg hname]
    rw [hex α spawn tools tl args e hfind herr hname]
    dsimp only
    rw [show (9 : Nat) = 8 + 1 from rfl, subagentGo_succ, if_neg (by decide), horacle2]

/-- A registered calculator-style tool whose execution always fails, for the
C6 witness. -/
def c6FailingTool : RegisteredTool Unit :=
  { name := "bash", exec := fun _ => .error "boom" }

/-- A model oracle for the C6 witness: requests the failing tool on the first
state of each scenario, answers plainly afterwards. -/
def c6Oracle : List (Message Unit) → OllamaResponse Unit :=
  fun msgs =>
    if (msgs.filter (fun m => m.role == "tool")).isEmpty then
      ⟨"calling", some [⟨some "42", some ⟨some "bash", some ()⟩⟩]⟩
    else
      ⟨"recovered", none⟩

/-- C6, witness: the same failing tool aborts the top-level turn with the
propagated error, while the subagent loop converts it to a `tool` message and
finishes with the follow-up answer. -/
theorem tool_error_fatal_at_top_level_converted_in_subagent_witness :
    invoke c6Oracle (execute_tool (fun _ => .ok "spawned") [c6FailingTool]) [] "go"
        = ([userMessage "go",
            assistantMessage "calling" (some [⟨some "42", some ⟨some "bash", some ()⟩⟩])],
          .error ("Tool execution error: " ++ "boom")) ∧
      run_subagent_loop c6Oracle
          (execute_tool (fun _ => .ok "spawned") [c6FailingTool]) [] 10
        = ([assistantMessage "calling" (some [⟨some "42", some ⟨some "bash", some ()⟩⟩]),
            toolMessage "42" ("Tool execution error: " ++ ("Tool execution error: " ++ "boom")),
            assistantMessage "recovered" none],
          .ok "recovered") := by
  constructor
  · have h := (tool_error_fatal_at_top_level_converted_in_subagent).1 Unit
      inferInstance (fun _ => .ok "spawned") [c6FailingTool] c6FailingTool () "boom"
      c6Oracle [] "go" "42" "calling" rfl rfl (by decide) rfl
    simpa using h
  · have h := (tool_error_fatal_at_top_level_converted_in_subagent).2 Unit
      inferInstance (fun _ => .ok "spawned") [c6FailingTool] c6FailingTool () "boom"
      c6Oracle [] "42" "calling" "recovered" rfl rfl (by decide) rfl rfl
    simpa using h

/-! ## The tool-message linking invariant (C8) -/

/-- The tool-call context a message sees: the `tool_calls` of the nearest
preceding `assistant` message, provided only `tool` messages stand between it
and that assistant message. -/
def stepCtx (ctx : Option (List (ToolCall α))) (m : Message α) :
    Option (List (ToolCall α)) :=
  if m.role == "tool" then ctx
  else if m.role == "assistant" then m.tool_calls
  else none

/-- A message is well-linked in context `ctx`: a `tool` message must carry a
`tool_call_id` equal to the `id` of some call of the immediately preceding
assistant message; other roles are unconstrained. -/
def msgOk (ctx : Option (List (ToolCall α))) (m : Message α) : Bool :=
  if m.role == "tool" then
    match ctx with
    | some calls => calls.any (fun tc => tc.id.isSome && (m.tool_call_id == tc.id))
    | none => false
  else true

def convOkFrom : Option (List (ToolCall α)) → List (Message α) → Bool
  | _, [] => true
  | ctx, m :: rest => msgOk ctx m && convOkFrom (stepCtx ctx m) rest

/-- Every `tool` message of the conversation references, via its
`tool_call_id`, the `id` of some tool-call request of the immediately
preceding `assistant` message. -/
def convOk (msgs : List (Message α)) : Bool := convOkFrom none msgs

def ctxAfter (ctx : Option (List (ToolCall α))) (msgs : List (Message α)) :
    Option (List (ToolCall α)) :=
  msgs.foldl stepCtx ctx

omit [Inhabited α] in
theorem convOkFrom_append (xs ys : List (Message α)) :
    ∀ ctx, convOkFrom ctx (xs ++ ys)
      = (convOkFrom ctx xs && convOkFrom (ctxAfter ctx xs) ys) := by
  induction xs with
  | nil => intro ctx; simp [convOkFrom, ctxAfter]
  | cons m rest ih =>
    intro ctx
    simp [convOkFrom, ctxAfter, ih, Bool.and_assoc, List.foldl_cons]

omit [Inhabited α] in
theorem ctxAfter_append (xs ys : List (Message α)) (ctx : Option (List (ToolCall α))) :
    ctxAfter ctx (xs ++ ys) = ctxAfter (ctxAfter ctx xs) ys :=
  List.foldl_append ..

omit [Inhabited α] in
/-- Appending the `tool` message produced for a call `tc` of the pending
assistant context keeps the conversation well-linked. -/
theorem append_toolMessage_ok (msgs : List (Message α))
    (calls₀ : List (ToolCall α)) (tc : ToolCall α) (content : String)
    (htc : tc ∈ calls₀) (hid : tc.id.isSome = true)
    (hok : convOk msgs = true) (hctx : ctxAfter none msgs = some calls₀) :
    convOk (msgs ++ [toolMessage (tc.id.getD "") content]) = true ∧
      ctxAfter none (msgs ++ [toolMessage (tc.id.getD "") content]) = some calls₀ := by
  obtain ⟨s, hs⟩ : ∃ s, tc.id = some s := by
    cases h : tc.id with
    | none => rw [h] at hid; exact absurd hid (by simp)
    | some s => exact ⟨s, rfl⟩
  have hmsgOk : msgOk (some calls₀) (toolMessage (α := α) (tc.id.getD "") content)
      = true := by
    simp only [msgOk, toolMessage, List.any_eq_true]
    rw [if_pos (by decide)]
    rw [List.any_eq_true]
    refine ⟨tc, htc, ?_⟩
    simp [hs]
  constructor
  · rw [convOk, convOkFrom_append, hctx]
    simp [convOk] at hok
    simp [hok, convOkFrom, hmsgOk]
  · rw [ctxAfter_append, hctx]
    simp [ctxAfter, stepCtx, toolMessage]

omit [Inhabited α] in
/-- Appending an `assistant` message keeps the conversation well-linked and
resets the context to that message's `tool_calls`. -/
theorem append_assistantMessage_ok (msgs : List (Message α))
    (content : String) (tool_calls : Option (List (ToolCall α)))
    (hok : convOk msgs = true) :
    convOk (msgs ++ [assistantMessage content tool_calls]) = true ∧
      ctxAfter none (msgs ++ [assistantMessage content tool_calls]) = tool_calls := by
  constructor
  · rw [convOk, convOkFrom_append]
    simp [convOk] at hok
    simp [hok, convOkFrom, msgOk, assistantMessage]
  · rw [ctxAfter_append]
    simp [ctxAfter, stepCtx, assistantMessage]

theorem dispatchCalls_preserves_convOk
    (execTool : String → α → Except String String) (calls₀ : List (ToolCall α))
    (hids : ∀ tc ∈ calls₀, tc.id.isSome = true) :
    ∀ (calls : List (ToolCall α)), (∀ tc ∈ calls, tc ∈ calls₀) →
      ∀ (msgs : List (Message α)),
        convOk msgs = true → ctxAfter none msgs = some calls₀ →
        convOk (dispatchCalls execTool msgs calls).1 = true ∧
          ctxAfter none (dispatchCalls execTool msgs calls).1 = some calls₀ := by
  intro calls
  induction calls with
  | nil => intro _ msgs hok hctx; exact ⟨hok, hctx⟩
  | cons tc rest ih =>
    intro hsub msgs hok hctx
    have htc : tc ∈ calls₀ := hsub tc (List.mem_cons_self tc rest)
    have hsub' : ∀ x ∈ rest, x ∈ calls₀ :=
      fun x hx => hsub x (List.mem_cons_of_mem tc hx)
    match hfn : tc.function with
    | none =>
      simpa [dispatchCalls, hfn] using ih hsub' msgs hok hctx
    | some f =>
      cases hr : execTool (f.name.getD "") (f.arguments.getD default) with
      | error e => simpa [dispatchCalls, hfn, hr] using ⟨hok, hctx⟩
      | ok r =>
        have hstep := append_toolMessage_ok msgs calls₀ tc r htc
          (hids tc htc) hok hctx
        simpa [dispatchCalls, hfn, hr] using
          ih hsub' (msgs ++ [toolMessage (tc.id.getD "") r]) hstep.1 hstep.2

theorem subagentDispatch_preserves_convOk
    (execTool : String → α → Except String String) (calls₀ : List (ToolCall α))
    (hids : ∀ tc ∈ calls₀, tc.id.isSome = true) :
    ∀ (calls : List (ToolCall α)), (∀ tc ∈ calls, tc ∈ calls₀) →
      ∀ (msgs : List (Message α)),
        convOk msgs = true → ctxAfter none msgs = some calls₀ →
        convOk (subagentDispatch execTool msgs calls) = true ∧
          ctxAfter none (subagentDispatch execTool msgs calls) = some calls₀ := by
  intro calls
  induction calls with
  | nil => intro _ msgs hok hctx; exact ⟨hok, hctx⟩
  | cons tc rest ih =>
    intro hsub msgs hok hctx
    have htc : tc ∈ calls₀ := hsub tc (List.mem_cons_self tc rest)
    have hsub' : ∀ x ∈ rest, x ∈ calls₀ :=
      fun x hx => hsub x (List.mem_cons_of_mem tc hx)
    match hfn : tc.function with
    | none =>
      simpa [subagentDispatch, hfn] using ih hsub' msgs hok hctx
    | some f =>
      by_cases hname : f.name.getD "" = "task"
      · have hstep := append_toolMessage_ok msgs calls₀ tc recursionGuardMessage htc
          (hids tc htc) hok hctx
        simpa [subagentDispatch, hfn, hname] using
          ih hsub' (msgs ++ [toolMessage (tc.id.getD "") recursionGuardMessage])
            hstep.1 hstep.2
      · set result := match execTool (f.name.getD "") (f.arguments.getD default) with
          | .ok r => r
          | .error e => "Tool execution error: " ++ e with hres
        have hstep := append_toolMessage_ok msgs calls₀ tc result htc
          (hids tc htc) hok hctx
        simpa [subagentDispatch, hfn, hname, ← hres] using
          ih hsub' (msgs ++ [toolMessage (tc.id.getD "") result]) hstep.1 hstep.2

omit [Inhabited α] in
theorem append_userMessage_ok (msgs : List (Message α)) (prompt : String)
    (hok : convOk msgs = true) : convOk (msgs ++ [userMessage prompt]) = true := by
  rw [convOk, convOkFrom_append]
  simp only [convOk] at hok
  simp [hok, convOkFrom, msgOk, userMessage]

theorem invokeLoop_preserves_convOk
    (oracle : List (Message α) → OllamaResponse α)
    (execTool : String → α → Except String String)
    (hids : ∀ msgs tc, tc ∈ ((oracle msgs).tool_calls.getD []) → tc.id.isSome = true) :
    ∀ (fuel : Nat) (msgs : List (Message α)), convOk msgs = true →
      convOk (invokeLoop oracle execTool fuel msgs).1 = true := by
  intro fuel
  induction fuel with
  | zero => intro msgs hok; exact hok
  | succ n ih =>
    intro msgs hok
    rw [invokeLoop_succ]
    cases hcalls : (oracle msgs).tool_calls with
    | none =>
      exact (append_assistantMessage_ok msgs (oracle msgs).content none hok).1
    | some calls =>
      dsimp only
      have hstep := append_assistantMessage_ok msgs (oracle msgs).content
        (some calls) hok
      have hidcalls : ∀ tc ∈ calls, tc.id.isSome = true := by
        intro tc htc
        apply hids msgs
        rw [hcalls]
        simpa using htc
      have hd := dispatchCalls_preserves_convOk execTool calls hidcalls calls
        (fun _ h => h)
        (msgs ++ [assistantMessage (oracle msgs).content (some calls)])
        hstep.1 hstep.2
      rcases hdp : dispatchCalls execTool
        (msgs ++ [assistantMessage (oracle msgs).content (some calls)]) calls
        with ⟨m2, err⟩
      rw [hdp] at hd
      cases err with
      | none => exact ih m2 hd.1
      | some e => exact hd.1

theorem subagentGo_preserves_convOk
    (oracle : List (Message α) → OllamaResponse α)
    (execTool : String → α → Except String String)
    (hids : ∀ msgs tc, tc ∈ ((oracle msgs).tool_calls.getD []) → tc.id.isSome = true) :
    ∀ (remaining iteration : Nat) (msgs : List (Message α)), convOk msgs = true →
      convOk (subagentGo oracle execTool remaining iteration msgs).1 = true := by
  intro remaining
  induction remaining with
  | zero => intro it msgs hok; exact hok
  | succ r ih =>
    intro it msgs hok
    rw [subagentGo_succ]
    by_cases hit : it + 1 > max_iterations
    · rw [if_pos hit]; exact hok
    · rw [if_neg hit]
      cases hcalls : (oracle msgs).tool_calls with
      | none =>
        exact (append_assistantMessage_ok msgs (oracle msgs).content none hok).1
      | some calls =>
        dsimp only
        have hstep := append_assistantMessage_ok msgs (oracle msgs).content
          (some calls) hok
        have hidcalls : ∀ tc ∈ calls, tc.id.isSome = true := by
          intro tc htc
          apply hids msgs
          rw [hcalls]
          simpa using htc
        have hd := subagentDispatch_preserves_convOk execTool calls hidcalls calls
          (fun _ h => h)
          (msgs ++ [assistantMessage (oracle msgs).content (some calls)])
          hstep.1 hstep.2
        exact ih (it + 1) _ hd.1

/-- C8: in every conversation state produced by the agent loops — the
top-level `invoke` loop and the subagent loop — each `tool`-role message
carries a `tool_call_id` equal to the `id` of some tool-call request of the
immediately preceding `assistant` message, provided the model's tool-call
requests carry ids (as the protocol's data model requires) and the starting
history is itself well-linked. -/
theorem tool_messages_reference_preceding_assistant
    (oracle : List (Message α) → OllamaResponse α)
    (execTool : String → α → Except String String)
    (hids : ∀ msgs tc, tc ∈ ((oracle msgs).tool_calls.getD []) → tc.id.isSome = true)
    (init : List (Message α)) (prompt : String) (max_turns : Nat)
    (hinit : convOk init = true) :
    convOk (invoke oracle execTool init prompt).1 = true ∧
      convOk (run_subagent_loop oracle execTool init max_turns).1 = true := by
  constructor
  · exact invokeLoop_preserves_convOk oracle execTool hids max_iterations
      (init ++ [userMessage prompt]) (append_userMessage_ok init prompt hinit)
  · exact subagentGo_preserves_convOk oracle execTool hids max_turns 0 init hinit

/-- A model oracle for the C8 witness: one id-carrying tool call first, a
plain answer once a tool result is in the history. -/
def c8Oracle : List (Message Unit) → OllamaResponse Unit :=
  fun msgs =>
    if (msgs.filter (fun m => m.role == "tool")).isEmpty then
      ⟨"working", some [⟨some "7", some ⟨some "bash", some ()⟩⟩]⟩
    else
      ⟨"done", none⟩

/-- C8, witness: both loops, run from the empty history against `c8Oracle`,
end in well-linked conversation states. -/
theorem tool_messages_reference_preceding_assistant_witness :
    convOk (invoke c8Oracle (fun _ _ => .ok "out")
        ([] : List (Message Unit)) "p").1 = true ∧
      convOk (run_subagent_loop c8Oracle (fun _ _ => .ok "out")
        ([] : List (Message Unit)) 10).1 = true :=
  tool_messages_reference_preceding_assistant c8Oracle (fun _ _ => .ok "out")
    (by
      intro msgs tc htc
      by_cases hc : (msgs.filter (fun m => m.role == "tool")).isEmpty
      · simp [c8Oracle, hc] at htc
        subst htc
        rfl
      · simp [c8Oracle, hc] at htc)
    [] "p" 10 rfl

/-! ## Order preservation of the concurrent fan-out (C9) -/

theorem completeAll_getElem (res : List ρ) :
    ∀ (order : List Nat) (out : List (Option ρ)) (j : Nat),
      (completeAll res order out)[j]? =
        if j ∈ order ∧ j < out.length then some res[j]? else out[j]? := by
  intro order
  induction order with
  | nil =>
    intro out j
    simp [completeAll]
  | cons i rest ih =>
    intro out j
    rw [show completeAll res (i :: rest) out
      = completeAll res rest (out.set i res[i]?) from rfl]
    rw [ih]
    rw [List.length_set]
    by_cases hjr : j ∈ rest ∧ j < out.length
    · rw [if_pos hjr, if_pos ⟨List.mem_cons_of_mem i hjr.1, hjr.2⟩]
    · rw [if_neg hjr]
      rw [List.getElem?_set]
      by_cases hij : i = j
      · subst hij
        by_cases hlen : i < out.length
        · rw [if_pos rfl, if_pos hlen, if_pos ⟨List.mem_cons_self i rest, hlen⟩]
        · rw [if_pos rfl, if_neg hlen, if_neg (fun hc => hlen hc.2)]
          exact (List.getElem?_eq_none (by omega)).symm
      · rw [if_neg hij]
        have hcond : ¬(j ∈ i :: rest ∧ j < out.length) := by
          rintro ⟨hmem, hlen⟩
          rcases List.mem_cons.mp hmem with hh | hh
          · exact hij hh.symm
          · exact hjr ⟨hh, hlen⟩
        rw [if_neg hcond]

theorem joinAll_perm (res : List ρ) (order : List Nat)
    (hperm : order.Perm (List.range res.length)) :
    joinAll res order = res.map some := by
  apply List.ext_getElem?
  intro j
  rw [joinAll, completeAll_getElem, List.length_replicate, List.getElem?_map]
  by_cases hj : j < res.length
  · have hmem : j ∈ order := hperm.mem_iff.mpr (List.mem_range.mpr hj)
    rw [if_pos ⟨hmem, hj⟩, List.getElem?_eq_getElem hj]
    rfl
  · rw [if_neg (fun hc => hj hc.2), List.getElem?_replicate, if_neg hj,
      List.getElem?_eq_none (by omega)]
    rfl

theorem collectResults_ok :
    ∀ (l : List (Except String String)) (rs : List String),
      collectResults l = .ok rs →
      rs.length = l.length ∧
        ∀ (i : Nat) (h : i < l.length) (h2 : i < rs.length),
          l.get ⟨i, h⟩ = .ok (rs.get ⟨i, h2⟩) := by
  intro l
  induction l with
  | nil =>
    intro rs h
    have hrs : rs = [] := by
      simpa [collectResults] using h.symm
    subst hrs
    exact ⟨rfl, fun i h _ => absurd h (by simp)⟩
  | cons x rest ih =>
    intro rs h
    match x with
    | .error e => simp [collectResults] at h
    | .ok r =>
      simp only [collectResults] at h
      cases hc : collectResults rest with
      | error e => rw [hc] at h; simp at h
      | ok rsr =>
        rw [hc] at h
        simp only [Except.ok.injEq] at h
        subst h
        obtain ⟨hlen, hget⟩ := ih rsr hc
        refine ⟨by simp [hlen], ?_⟩
        intro i hi h2
        match i with
        | 0 => rfl
        | i + 1 =>
          exact hget i (by simpa using hi) (by simpa using h2)

/-- C9: concurrently spawned subagent tasks are all waited for, and the
results are returned in the original, caller-specified task order regardless
of the order in which the tasks complete: whatever the completion order (any
permutation of the task indices), the joined slots equal the per-task results
in request order, and a successful `spawn_multiple_tasks` returns one result
per task with the i-th result produced by the i-th task. -/
theorem spawn_multiple_tasks_ordered
    (runTask : SubAgentTask → Except String String) (tasks : List SubAgentTask)
    (order : List Nat) (hperm : order.Perm (List.range tasks.length)) :
    joinAll (tasks.map runTask) order = (tasks.map runTask).map some ∧
      ∀ rs, spawn_multiple_tasks runTask tasks = .ok rs →
        rs.length = tasks.length ∧
          ∀ (i : Nat) (hi : i < tasks.length) (hr : i < rs.length),
            runTask (tasks.get ⟨i, hi⟩) = .ok (rs.get ⟨i, hr⟩) := by
  constructor
  · exact joinAll_perm (tasks.map runTask) order (by simpa using hperm)
  · intro rs h
    obtain ⟨hlen, hget⟩ := collectResults_ok (tasks.map runTask) rs h
    refine ⟨by simpa using hlen, ?_⟩
    intro i hi hr
    have hx := hget i (by simpa using hi) hr
    simpa [List.get_eq_getElem] using hx

/-- Two delegation tasks for the C9 witness. -/
def c9Tasks : List SubAgentTask :=
  [⟨.GeneralPurpose, "Task 1", "What is 1 + 1?", false, false⟩,
   ⟨.GeneralPurpose, "Task 2", "What is 2 + 2?", false, false⟩]

/-- A per-task outcome for the C9 witness. -/
def c9Run : SubAgentTask → Except String String :=
  fun t => .ok ("did: " ++ t.description)

/-- C9, witness: with the two tasks completing in reverse order (`[1, 0]`),
the joined results still sit in request order. -/
theorem spawn_multiple_tasks_ordered_witness :
    joinAll (c9Tasks.map c9Run) [1, 0] = (c9Tasks.map c9Run).map some :=
  (spawn_multiple_tasks_ordered c9Run c9Tasks [1, 0] (by decide)).1

end Ariste
